import Mathlib

/-!
Verification of the expat-wasm binding layer (hildjj/expat-wasm).

This file gives a shallow embedding of the JavaScript glue code of the
repository and proves the spec's claims about it.  The embedded pieces are:

* `src/lib/pointers.js` — the `Pointers` handle table (`add`, `remove`,
  `get`, `call`).  JavaScript arrays-with-holes are modelled as
  `List (Option α)`: reading out of range or reading a hole both yield
  `none` (JS `undefined`); `delete arr[i]` punches a hole; assigning past
  the end extends the array with holes.  The `unused` stack is stored with
  the most recently pushed index first (JS `push`/`pop` operate on the far
  end of the array; only the pop order is observable).
* `src/lib/index.js` — the chunked feed loop of the static
  `XmlParser.XML_Parse`, the instance methods `parse`, `reset`, `stop`,
  `destroy`, the `emit` wildcard duplication, and the `_elementDecl`
  callback with its `try/finally` release of the foreign content model.

The foreign expat engine itself (compiled WASM, not under `src/`) is an
external collaborator reached through a fixed ABI.  Its responses are
modelled as oracles (status values, error-introspection records, heap
contents), and the effects the glue code has on it are recorded as explicit
traces of ABI calls.
-/

namespace ExpatWasm

/-! ## Handle table: `src/lib/pointers.js` -/

/-- JavaScript array write `arr[i] = v` for an array modelled as
`List (Option α)`: in range it overwrites, past the end it extends the
array with holes (`none`) and then the value. -/
def jsSet (l : List (Option α)) (i : Nat) (v : Option α) : List (Option α) :=
  if i < l.length then l.set i v
  else l ++ List.replicate (i - l.length) none ++ [v]

/-- JavaScript `delete arr[i]`: in range it punches a hole, past the end it
is a no-op. -/
def jsDelete (l : List (Option α)) (i : Nat) : List (Option α) :=
  if i < l.length then l.set i none else l

/-- JavaScript array read `arr[i]`: out of range or a hole gives
`undefined` (`none`). -/
def jsGet (l : List (Option α)) (i : Nat) : Option α :=
  l.getD i none

/-- State of the `Pointers` class (`src/lib/pointers.js`): the backing
array `pointers` and the stack `unused` of recycled indices. -/
structure Pointers (α : Type) where
  pointers : List (Option α)
  unused : List Nat
deriving Repr

/-- A freshly constructed `Pointers` table: both private fields start as
empty arrays. -/
def Pointers.empty : Pointers α := ⟨[], []⟩

/-- The `size` getter: `this.#pointers.length`. -/
def Pointers.size (p : Pointers α) : Nat := p.pointers.length

/-- The `available` getter: `this.#unused.length`. -/
def Pointers.available (p : Pointers α) : Nat := p.unused.length

/-- `Pointers.prototype.add`: pop an index off `unused` and store the
object there; if the stack was empty (`pop()` returned `undefined`), push
the object onto the end and return the new length minus one. -/
def Pointers.add (p : Pointers α) (obj : α) : Nat × Pointers α :=
  match p.unused with
  | [] => (p.pointers.length, ⟨p.pointers ++ [some obj], []⟩)
  | i :: rest => (i, ⟨jsSet p.pointers i (some obj), rest⟩)

/-- `Pointers.prototype.remove`: throw `'Already deleted'` when the index
is already on the `unused` stack (`indexOf(index) !== -1`); otherwise
`delete` the slot and push the index onto `unused`. -/
def Pointers.remove (p : Pointers α) (index : Nat) : Except String (Pointers α) :=
  if index ∈ p.unused then .error "Already deleted"
  else .ok ⟨jsDelete p.pointers index, index :: p.unused⟩

/-- `Pointers.prototype.get`: plain array read, `undefined` for unknown or
removed indices. -/
def Pointers.get (p : Pointers α) (index : Nat) : Option α :=
  jsGet p.pointers index

/-- A JavaScript property value, as far as `Pointers.prototype.call` can
observe it: the call arguments and the method result are opaque type
parameters `A` and `R`, and a method closes over its own object (so the
`func.call(o, ...)` receiver is captured inside `f`). -/
inductive JsProp (A R : Type) where
  | undef
  | num (n : Int)
  | str (s : String)
  | bool (b : Bool)
  | func (f : String → List A → R)

/-- The JavaScript `typeof` operator on a `JsProp`. -/
def JsProp.typeof : JsProp A R → String
  | .undef => "undefined"
  | .num _ => "number"
  | .str _ => "string"
  | .bool _ => "boolean"
  | .func _ => "function"

/-- Template-literal stringification `${v}` of a `JsProp`.  The `func`
case never reaches an error message in `call` (its source text would be
printed); the other cases follow JavaScript's ToString. -/
def JsProp.display : JsProp A R → String
  | .undef => "undefined"
  | .num n => toString n
  | .str s => s
  | .bool b => if b then "true" else "false"
  | .func _ => "function"

/-- An object stored in the handle table, seen as its property map.
JavaScript objects are always truthy, so `if (!o)` in `call` is exactly
the absent-handle test. -/
structure JsObj (A R : Type) where
  props : String → JsProp A R

/-- `Pointers.prototype.call`: look the object up, throw naming the index
when absent, throw naming the method (plus `typeof` and the stringified
value) when the property is not callable, otherwise invoke the method with
the event name first. -/
def Pointers.call (p : Pointers (JsObj A R)) (funcName event : String)
    (index : Nat) (args : List A) : Except String R :=
  match p.get index with
  | none => .error ("Invalid object index: " ++ toString index)
  | some o =>
    match o.props funcName with
    | .func f => .ok (f event args)
    | v => .error ("Invalid object for function: \"" ++ funcName ++ "\" "
        ++ v.typeof ++ " " ++ v.display)

/-- One operation against the handle table, for reasoning about arbitrary
call sequences. -/
inductive PtrOp (α : Type) where
  | add (obj : α)
  | remove (index : Nat)

/-- Run one operation; a `remove` that throws leaves the table unchanged
(the exception propagates to the caller, the fields were not touched). -/
def runOp (p : Pointers α) : PtrOp α → Pointers α
  | .add obj => (p.add obj).2
  | .remove i =>
    match p.remove i with
    | .ok p' => p'
    | .error _ => p

/-- Run a sequence of operations from the empty table. -/
def runOps (ops : List (PtrOp α)) : Pointers α :=
  ops.foldl runOp Pointers.empty

/-- The handles returned by a pure sequence of `add` calls. -/
def addTrace (p : Pointers α) : List α → List Nat
  | [] => []
  | obj :: objs => (p.add obj).1 :: addTrace (p.add obj).2 objs

/-- A string `x` is named inside a message when it occurs contiguously in
it. -/
def mentions (msg x : String) : Prop := x.data <:+: msg.data

/-- Invariant of the handle table: the recycled stack holds no duplicates,
and every recycled index dereferences to `undefined`. -/
def Inv (p : Pointers α) : Prop :=
  p.unused.Nodup ∧ ∀ i ∈ p.unused, p.get i = none

/-- An object with no properties at all (every lookup is `undefined`). -/
def noMethodObj : JsObj Nat Nat := ⟨fun _ => .undef⟩

/-- A table holding `noMethodObj` at handle `0`. -/
def noMethodTable : Pointers (JsObj Nat Nat) :=
  (Pointers.empty.add noMethodObj).2

/-- An object whose `count` method returns the number of extra
arguments. -/
def countObj : JsObj Nat Nat :=
  ⟨fun s => if s = "count" then .func (fun _ args => args.length) else .undef⟩

/-- A table holding `countObj` at handle `0`. -/
def countTable : Pointers (JsObj Nat Nat) :=
  (Pointers.empty.add countObj).2

instance (msg x : String) : Decidable (mentions msg x) :=
  List.decidableInfix x.data msg.data

/-! ## Chunked feed loop: static `XmlParser.XML_Parse` (`src/lib/index.js`) -/

/-- `XmlParser.CHUNK_SIZE`. -/
def CHUNK_SIZE : Nat := 4096

/-- The `for` loop of the static `XML_Parse` (src/lib/index.js lines
413-436), written as recursion on the bytes not yet fed.  At offset `o`
into the original input, `rest` is `str.slice(o)`, so the loop variables
translate as: `chunk = str.slice(o, o + CHUNK_SIZE) = rest.take CHUNK_SIZE`,
`last = (o + CHUNK_SIZE >= len) = (rest.length <= CHUNK_SIZE)` and the loop
guard `(o == 0) || (o < len)` holds again after this iteration exactly when
`last` is false.  `last && isFinal` is `0` when `last` is `0`, else
`isFinal`.  `engine k` is the status the foreign `XML_Parse` ccall returns
for the `k`-th chunk; on status `0` the loop returns early.  The result is
the list of `(chunk, isFinal-argument)` pairs that crossed the ABI, and the
returned status. -/
def feedChunks (engine : Nat → Nat) (isFinal : Nat) (k : Nat) (rest : List β) :
    List (List β × Nat) × Nat :=
  let chunk := rest.take CHUNK_SIZE
  let flag := if rest.length ≤ CHUNK_SIZE then isFinal else 0
  let ret := engine k
  if ret = 0 then ([(chunk, flag)], 0)
  else if rest.length ≤ CHUNK_SIZE then ([(chunk, flag)], ret)
  else
    let r := feedChunks engine isFinal (k + 1) (rest.drop CHUNK_SIZE)
    ((chunk, flag) :: r.1, r.2)
termination_by rest.length
decreasing_by simp only [List.length_drop]; simp only [CHUNK_SIZE] at *; omega

/-- The static `XML_Parse` on an input already in byte form (the `string`
branch first converts through `Buffer.from`; claims quantify over byte
sequences, which reach the loop unchanged). -/
def XML_Parse (engine : Nat → Nat) (str : List β) (isFinal : Nat) :
    List (List β × Nat) × Nat :=
  feedChunks engine isFinal 0 str

/-! ## Parser instance state machine (`src/lib/index.js`) -/

/-- One emission delivered to subscribers.  `XmlParser.prototype.emit`
forwards every event to the named subscription and then to the `'*'`
wildcard subscription; argument payloads are opaque (`A`). -/
inductive Emission (A : Type) where
  | specific (name : String) (args : List A)
  | star (name : String) (args : List A)
deriving DecidableEq, Repr

/-- `XmlParser.prototype.emit` (src/lib/index.js lines 804-810): the
specific event first, the wildcard copy immediately after. -/
def emitOne (name : String) (args : List A) : List (Emission A) :=
  [.specific name args, .star name args]

/-- The emissions produced by a sequence of `emit` calls. -/
def emitAll (calls : List (String × List A)) : List (Emission A) :=
  calls.flatMap fun c => emitOne c.1 c.2

/-- Foreign-engine state for one parser handle.  Modelled from the spec:
the expat engine itself is compiled WASM, not under `src/`; per the spec's
boundary ABI it accepts feeds returning a tri-state status
`{error = 0, ok = 1, suspended = 2}`, a completed final parse leaves it
unable to accept a further document, and `XML_ParserReset` makes it
reusable. -/
structure Engine where
  finished : Bool
deriving DecidableEq, Repr

/-- Feed one document chunk to the engine.  Modelled from the spec:
`status` is the oracle verdict the engine would give for this chunk
(`0` error, `1` ok, `2` suspended); a finished engine rejects any further
input, and a successful final feed finishes the engine. -/
def Engine.feed (e : Engine) (status finalFlag : Nat) : Nat × Engine :=
  if e.finished then (0, e)
  else (status, ⟨status == 1 && finalFlag == 1⟩)

/-- Error-introspection answers of the foreign engine at the moment a
parse error is surfaced (`XML_GetErrorCode`, `XML_GetCurrentLineNumber`,
`XML_GetCurrentColumnNumber`, `XML_GetCurrentByteIndex`, `XML_GetBase`).
An unset base reads back as the empty string (`UTF8ToString(NULL)`). -/
structure ErrInfo where
  code : Nat
  line : Nat
  column : Nat
  byteIndex : Int
  base : String
deriving DecidableEq, Repr

/-- The `XmlParseError` built by its constructor (src/lib/index.js lines
28-44) from the engine's introspection answers: `errorString` is the
engine's `XML_ErrorString` table, `extra` the optional message suffix. -/
structure XmlParseError where
  message : String
  code : Nat
  xmlMessage : String
  line : Nat
  column : Nat
  byteOffset : Int
  base : Option String
deriving DecidableEq, Repr

/-- The `XmlParseError` constructor body: query code, message, position,
and keep the base only when it is truthy (non-empty). -/
def XmlParseError.ofInfo (errorString : Nat → String) (info : ErrInfo)
    (extra : String := "") : XmlParseError :=
  let msg := errorString info.code ++ extra
  { message := "XML Parse Error: \"" ++ msg ++ "\""
    code := info.code
    xmlMessage := msg
    line := info.line
    column := info.column
    byteOffset := info.byteIndex
    base := if info.base = "" then none else some info.base }

/-- A thrown JavaScript value: either a plain `Error` with a message or a
structured `XmlParseError`. -/
inductive JsError where
  | error (message : String)
  | parseError (e : XmlParseError)
deriving DecidableEq, Repr

/-- Calls the instance methods make across the WASM ABI, recorded as a
trace. -/
inductive Action where
  | engineParse (status finalFlag : Nat)
  | engineReset
  | registerHandlers
  | engineStop (resumable ok : Nat)
  | engineFree
deriving DecidableEq, Repr

/-- The per-instance fields of `XmlParser` that the lifecycle methods
read and write: `this.parser` (the foreign handle, `none` once
`delete`d — JavaScript truthiness also rejects a `0` handle), `this.id`
(the handle-table slot, `none` once `delete`d), and the foreign engine
state behind `this.parser`. -/
structure PState where
  parser : Option Nat
  id : Option Nat
  engine : Engine
deriving DecidableEq, Repr

/-- JavaScript truthiness of `this.parser`: a deleted field and a zero
pointer are both falsy. -/
def optTruthy : Option Nat → Bool
  | none => false
  | some n => n != 0

/-- Result of `XmlParser.prototype.reset`: outcome, resulting instance
state, ABI calls made. -/
structure ResetResult where
  result : Except JsError Unit
  state : PState
  actions : List Action

/-- `XmlParser.prototype.reset` (src/lib/index.js lines 1287-1294): guard
on `this.parser`, then `XML_ParserReset` (making the engine reusable) and
`_registerHandlers`. -/
def PState.reset (s : PState) : ResetResult :=
  if !optTruthy s.parser then ⟨.error (.error "Invalid state"), s, []⟩
  else ⟨.ok (), { s with engine := ⟨false⟩ }, [.engineReset, .registerHandlers]⟩

/-- Result of `XmlParser.prototype.parse`: the returned status or thrown
error, the instance state afterwards (JavaScript mutates `this` whether or
not an exception propagates), and the ABI calls made. -/
structure ParseResult where
  result : Except JsError Nat
  state : PState
  actions : List Action

/-- `XmlParser.prototype.parse` (src/lib/index.js lines 1268-1282): guard
on `this.parser`; feed the chunk (`docStatus` is the engine's oracle
verdict); on status `0` build an `XmlParseError` from the engine's
introspection answers (`info`), reset, and throw it; on a successful final
chunk reset implicitly; otherwise return the status. -/
def PState.parse (s : PState) (docStatus : Nat) (errorString : Nat → String)
    (info : ErrInfo) (finalArg : Nat) : ParseResult :=
  if !optTruthy s.parser then ⟨.error (.error "Invalid state"), s, []⟩
  else
    let fed := s.engine.feed docStatus finalArg
    let s1 : PState := { s with engine := fed.2 }
    let tr := [Action.engineParse fed.1 finalArg]
    if fed.1 = 0 then
      let e := XmlParseError.ofInfo errorString info
      let r := s1.reset
      match r.result with
      | .ok _ => ⟨.error (.parseError e), r.state, tr ++ r.actions⟩
      | .error e2 => ⟨.error e2, r.state, tr ++ r.actions⟩
    else if fed.1 = 1 ∧ finalArg = 1 then
      let r := s1.reset
      match r.result with
      | .ok _ => ⟨.ok fed.1, r.state, tr ++ r.actions⟩
      | .error e2 => ⟨.error e2, r.state, tr ++ r.actions⟩
    else ⟨.ok fed.1, s1, tr⟩

/-- Result of `XmlParser.prototype.stop`. -/
structure StopResult where
  result : Except JsError Unit
  state : PState
  actions : List Action

/-- `XmlParser.prototype.stop` (src/lib/index.js lines 1324-1331): guard
on `this.parser`, call `XML_StopParser` (whose verdict is the oracle
`stopOk`), throw unless it returned `1`. -/
def PState.stop (s : PState) (stopOk resumable : Nat) : StopResult :=
  if !optTruthy s.parser then ⟨.error (.error "Invalid state"), s, []⟩
  else if stopOk ≠ 1 then
    ⟨.error (.error "XML_StopParser failed"), s, [.engineStop resumable stopOk]⟩
  else ⟨.ok (), s, [.engineStop resumable stopOk]⟩

/-- Result of `XmlParser.prototype.destroy`: returned boolean or
propagated exception, instance state, global handle table, ABI calls, and
the emissions of the `'destroy'` event. -/
structure DestroyResult (β : Type) where
  result : Except String Bool
  state : PState
  tbl : Pointers β
  actions : List Action
  events : List (Emission Bool)

/-- `XmlParser.prototype.destroy` (src/lib/index.js lines 1339-1355): free
the foreign parser and `delete this.parser` when it is truthy; remove
`this.id` from the class-wide handle table and `delete this.id` when it is
a number (a throwing `remove` propagates before the event fires); emit
`'destroy'` with `parser && id` and return it. -/
def PState.destroy (s : PState) (tbl : Pointers β) : DestroyResult β :=
  let parserFlag := optTruthy s.parser
  let s1 : PState := if parserFlag then { s with parser := none } else s
  let acts : List Action := if parserFlag then [.engineFree] else []
  match s.id with
  | some i =>
    match tbl.remove i with
    | .error msg => ⟨.error msg, s1, tbl, acts, []⟩
    | .ok tbl' =>
      let valid := parserFlag && true
      ⟨.ok valid, { s1 with id := none }, tbl', acts, emitOne "destroy" [valid]⟩
  | none =>
    let valid := parserFlag && false
    ⟨.ok valid, s1, tbl, acts, emitOne "destroy" [valid]⟩

/-! ## Element declarations: `_unpackModel` and `_elementDecl` -/

/-- The host-side content-model tree (`Model` typedef): a fully
host-owned value — only strings, numbers and nested lists, no foreign
addresses. -/
inductive Model where
  | mk (name : Option String) (type : Nat) (quant : Nat) (children : List Model)

/-- Name of a model node. -/
def Model.name : Model → Option String
  | .mk n _ _ _ => n

/-- `XmlParser.prototype._unpackModel` (src/lib/index.js lines 963-978):
walk the packed `XML_Content` records in the WASM heap.  `H` is `HEAPU32`
(indexed in 32-bit words, so a byte offset is divided by 4), `S` is
`UTF8ToString`.  Each record is five words: type, quant, name pointer,
child count, child-array pointer; children sit at 20-byte strides.  The
`name` field is only overwritten when the name pointer is truthy, so the
root keeps the caller-provided initial `{name}`.  `fuel` bounds the
recursion depth: the heap trees expat hands over are finite (on a cyclic
heap the JavaScript would not terminate either). -/
def unpackModel (H : Nat → Nat) (S : Nat → String) :
    Nat → Nat → Option String → Model
  | 0, _, nm => .mk nm 0 0 []
  | fuel + 1, offset, nm =>
    let a := offset / 4
    let namePtr := H (a + 2)
    let numchildren := H (a + 3)
    let children := H (a + 4)
    .mk (if namePtr ≠ 0 then some (S namePtr) else nm) (H a) (H (a + 1))
      ((List.range numchildren).map fun c =>
        unpackModel H S fuel (children + 20 * c) none)

/-- Observable steps of one `_elementDecl` callback: the host tree handed
to `emit`, and the `XML_FreeContentModel` ABI call with its arguments. -/
inductive DeclAction where
  | emitted (name : String) (m : Model)
  | freeContentModel (parser model : Nat)

/-- Does a step release the foreign content model? -/
def DeclAction.isFree : DeclAction → Bool
  | .freeContentModel _ _ => true
  | _ => false

/-- `XmlParser.prototype._elementDecl` (src/lib/index.js lines 995-1005):
decode the name, build the host tree (root seeded with `{name}`), emit the
event inside `try`, and in `finally` — on the normal and on the throwing
emission path alike — call `XML_FreeContentModel` provided `this.parser`
is still truthy.  `emitThrows` says whether a subscriber threw out of the
`emit` call; `parserAtFinally` is `this.parser` as the `finally` block
reads it. -/
def elementDecl (H : Nat → Nat) (S : Nat → String) (fuel : Nat)
    (parserAtFinally : Option Nat) (emitThrows : Bool) (nm model : Nat) :
    Except Unit Bool × List DeclAction :=
  let name := S nm
  let m := unpackModel H S fuel model (some name)
  let body : Except Unit Bool × List DeclAction :=
    if emitThrows then (.error (), [.emitted name m])
    else (.ok true, [.emitted name m])
  let fin : List DeclAction :=
    if optTruthy parserAtFinally
    then [.freeContentModel (parserAtFinally.getD 0) model]
    else []
  (body.1, body.2 ++ fin)

/-! ## Lemmas about the JavaScript array model -/

theorem jsGet_eq_getElem? (l : List (Option α)) (j : Nat) :
    jsGet l j = (l[j]?).getD none := by
  simp [jsGet, List.getD_eq_getElem?_getD]

theorem jsGet_out_of_range (l : List (Option α)) (j : Nat)
    (h : l.length ≤ j) : jsGet l j = none := by
  rw [jsGet_eq_getElem?, List.getElem?_eq_none h]
  rfl

theorem jsGet_jsSet (l : List (Option α)) (i j : Nat) (v : Option α) :
    jsGet (jsSet l i v) j = if j = i then v else jsGet l j := by
  by_cases hi : i < l.length
  · simp only [jsSet, hi, if_pos]
    by_cases hji : j = i
    · subst hji
      rw [if_pos rfl, jsGet_eq_getElem?, List.getElem?_set_self hi]
      rfl
    · rw [jsGet_eq_getElem?, List.getElem?_set_ne (Ne.symm hji),
        ← jsGet_eq_getElem?, if_neg hji]
  · simp only [jsSet, hi, if_neg, not_false_iff]
    push_neg at hi
    by_cases hji : j = i
    · subst hji
      rw [if_pos rfl, jsGet_eq_getElem?, List.getElem?_append_right
        (by simp; omega), List.length_append, List.length_replicate]
      have : j - (l.length + (j - l.length)) = 0 := by omega
      rw [this]
      rfl
    · rw [if_neg hji]
      rcases Nat.lt_or_ge j l.length with hj | hj
      · rw [jsGet_eq_getElem?, List.getElem?_append_left
          (by simp [List.length_append, List.length_replicate]; omega),
          List.getElem?_append_left hj, ← jsGet_eq_getElem?]
      · rcases Nat.lt_or_ge j i with hji2 | hji2
        · rw [jsGet_eq_getElem?, List.getElem?_append_left
            (by simp [List.length_append, List.length_replicate]; omega),
            List.getElem?_append_right hj, List.getElem?_replicate,
            if_pos (by omega), jsGet_out_of_range l j hj]
          rfl
        · have hlen : (l ++ List.replicate (i - l.length) none ++ [v]).length = i + 1 := by
            simp [List.length_append, List.length_replicate]; omega
          rw [jsGet_out_of_range _ j (by omega), jsGet_out_of_range l j (by omega)]

theorem jsGet_jsDelete (l : List (Option α)) (i j : Nat) :
    jsGet (jsDelete l i) j = if j = i then none else jsGet l j := by
  by_cases hi : i < l.length
  · simp only [jsDelete, hi, if_pos]
    by_cases hji : j = i
    · subst hji
      rw [if_pos rfl, jsGet_eq_getElem?, List.getElem?_set_self hi]
      rfl
    · rw [if_neg hji, jsGet_eq_getElem?, List.getElem?_set_ne (Ne.symm hji),
        ← jsGet_eq_getElem?]
  · simp only [jsDelete, hi, if_neg, not_false_iff]
    by_cases hji : j = i
    · subst hji
      rw [if_pos rfl, jsGet_out_of_range l j (by omega)]
    · rw [if_neg hji]

/-! ## Claim C1: `Pointers.call` error behaviour -/

theorem mentions_extend_right (msg t : String) (x : String)
    (h : mentions msg x) : mentions (msg ++ t) x := by
  rw [mentions, String.data_append]
  exact h.trans (List.prefix_append _ _).isInfix

theorem mentions_append_self (a : String) (x : String) :
    mentions (a ++ x) x := by
  rw [mentions, String.data_append]
  exact (List.suffix_append _ _).isInfix

/-- Claim C1, as the code actually behaves (amended): `call` on an absent
handle throws an error naming the handle; `call` on an object with no
callable property `m` throws an error naming `m` (but not the handle); on
a callable property it invokes the method with the event name first and
returns its result. -/
theorem call_spec (p : Pointers (JsObj A R)) (m e : String) (h : Nat)
    (args : List A) :
    (p.get h = none →
      p.call m e h args = .error ("Invalid object index: " ++ toString h) ∧
      mentions ("Invalid object index: " ++ toString h) (toString h)) ∧
    (∀ o, p.get h = some o → (∀ f, o.props m ≠ .func f) →
      ∃ msg, p.call m e h args = .error msg ∧ mentions msg m) ∧
    (∀ o f, p.get h = some o → o.props m = .func f →
      p.call m e h args = .ok (f e args)) := by
  refine ⟨fun hn => ⟨?_, ?_⟩, fun o ho hnf => ?_, fun o f ho hf => ?_⟩
  · simp only [Pointers.call, hn]
  · exact mentions_append_self _ _
  · simp only [Pointers.call, ho]
    cases hv : o.props m
    case func f => exact absurd hv (hnf f)
    all_goals
      refine ⟨_, rfl, ?_⟩
      exact mentions_extend_right _ _ _ (mentions_extend_right _ _ _
        (mentions_extend_right _ _ _ (mentions_extend_right _ _ _
          (mentions_append_self _ _))))
  · simp only [Pointers.call, ho, hf]

/-- Claim C1, counterexample to the claim as stated: at handle `0` the
table holds an object with no callable `m`, and the thrown error names
`m` but does not name the handle `0` anywhere in its message. -/
theorem call_missing_method_counterexample :
    noMethodTable.call "m" "evt" 0 [] =
      .error "Invalid object for function: \"m\" undefined undefined" ∧
    ¬ mentions "Invalid object for function: \"m\" undefined undefined" "0" := by
  exact ⟨rfl, by decide⟩

/-- Claim C1, witness: the three branches of `call_spec` at concrete
inputs. -/
theorem call_spec_witness :
    ((Pointers.empty : Pointers (JsObj Nat Nat)).call "m" "evt" 3 [] =
      .error "Invalid object index: 3") ∧
    (∃ msg, countTable.call "m" "evt" 0 [] = .error msg ∧ mentions msg "m") ∧
    (countTable.call "count" "evt" 0 [5, 6] = .ok 2) :=
  ⟨((call_spec Pointers.empty "m" "evt" 3 []).1 rfl).1,
   (call_spec countTable "m" "evt" 0 []).2.1 countObj rfl
     (fun f hf => by simp [countObj] at hf),
   (call_spec countTable "count" "evt" 0 [5, 6]).2.2 countObj
     (fun _ args => args.length) rfl rfl⟩

/-! ## Claim C3: `Pointers.remove` failure behaviour -/

/-- Claim C3, counterexample to the claim as stated: handle `0` was never
issued by `add` on the empty table and is not live (`get` is absent), yet
`remove 0` succeeds rather than failing — it even pushes the never-issued
index onto the recycled stack. -/
theorem remove_never_issued_counterexample :
    (Pointers.empty : Pointers Nat).get 0 = none ∧
    (Pointers.empty : Pointers Nat).remove 0 = .ok ⟨[], [0]⟩ :=
  ⟨rfl, rfl⟩

/-- Claim C3, amended: `remove h` fails (with the distinguishable
`'Already deleted'` error) exactly when `h` is already on the recycled
stack.  Hence a second `remove` of the same handle fails, and a `remove`
of a live (or merely absent-but-not-recycled) handle succeeds, after which
`get h` is absent. -/
theorem remove_spec (p : Pointers α) (i : Nat) :
    (i ∈ p.unused → p.remove i = .error "Already deleted") ∧
    (i ∉ p.unused → ∃ p', p.remove i = .ok p' ∧ p'.get i = none ∧
      p'.remove i = .error "Already deleted") := by
  constructor
  · intro hm
    simp [Pointers.remove, hm]
  · intro hm
    refine ⟨⟨jsDelete p.pointers i, i :: p.unused⟩, ?_, ?_, ?_⟩
    · simp [Pointers.remove, hm]
    · show jsGet (jsDelete p.pointers i) i = none
      rw [jsGet_jsDelete, if_pos rfl]
    · simp [Pointers.remove]

/-- Claim C3, witness: a live handle issued by `add` is removed once
successfully and a second `remove` fails. -/
theorem remove_spec_witness :
    ∃ p' : Pointers Nat, (Pointers.empty.add 7).2.remove 0 = .ok p' ∧
      p'.get 0 = none ∧ p'.remove 0 = .error "Already deleted" :=
  (remove_spec (Pointers.empty.add 7).2 0).2 (by decide)

/-! ## Claim C2: handles issued by `add` -/

theorem inv_empty : Inv (Pointers.empty : Pointers α) :=
  ⟨List.nodup_nil, by intro i hi; cases hi⟩

theorem inv_runOp (p : Pointers α) (op : PtrOp α) (h : Inv p) :
    Inv (runOp p op) := by
  obtain ⟨hnd, hdead⟩ := h
  cases op with
  | add obj =>
    show Inv (p.add obj).2
    cases hu : p.unused with
    | nil => exact ⟨by simp [Pointers.add, hu], by simp [Pointers.add, hu]⟩
    | cons i rest =>
      rw [hu] at hnd hdead
      refine ⟨by simp [Pointers.add, hu]; exact hnd.of_cons, ?_⟩
      intro j hj
      simp only [Pointers.add, hu] at hj ⊢
      show jsGet (jsSet p.pointers i (some obj)) j = none
      rw [jsGet_jsSet, if_neg, ← Pointers.get]
      · exact hdead j (List.mem_cons_of_mem i hj)
      · rintro rfl
        exact (List.nodup_cons.mp hnd).1 hj
  | remove i =>
    show Inv (runOp p (.remove i))
    by_cases hm : i ∈ p.unused
    · simpa [runOp, Pointers.remove, hm] using ⟨hnd, hdead⟩
    · simp only [runOp, Pointers.remove, hm, if_neg, not_false_iff]
      refine ⟨List.nodup_cons.mpr ⟨hm, hnd⟩, ?_⟩
      intro j hj
      show jsGet (jsDelete p.pointers i) j = none
      rw [jsGet_jsDelete]
      rcases List.mem_cons.mp hj with rfl | hj'
      · rw [if_pos rfl]
      · rw [if_neg, ← Pointers.get]
        · exact hdead j hj'
        · rintro rfl
          exact hm hj'

theorem inv_runOps (ops : List (PtrOp α)) : Inv (runOps ops) := by
  rw [runOps]
  have : ∀ p : Pointers α, Inv p → Inv (ops.foldl runOp p) := by
    induction ops with
    | nil => exact fun p h => h
    | cons op ops ih => exact fun p h => ih _ (inv_runOp p op h)
  exact this _ inv_empty

theorem add_fresh_of_inv (p : Pointers α) (o : α) (h : Inv p) :
    p.get (p.add o).1 = none := by
  cases hu : p.unused with
  | nil =>
    simp only [Pointers.add, hu]
    exact jsGet_out_of_range _ _ le_rfl
  | cons i rest =>
    have h1 : (p.add o).1 = i := by simp [Pointers.add, hu]
    rw [h1]
    exact h.2 i (by rw [hu]; exact List.mem_cons_self i rest)

theorem addTrace_of_no_unused (objs : List α) :
    ∀ p : Pointers α, p.unused = [] →
      addTrace p objs = List.range' p.size objs.length := by
  induction objs with
  | nil => intro p _; rfl
  | cons o objs ih =>
    intro p hu
    rw [addTrace, List.length_cons, List.range'_succ]
    simp only [Pointers.add, hu]
    refine congrArg (List.cons p.size) ?_
    have := ih ⟨p.pointers ++ [some o], []⟩ rfl
    simpa [Pointers.size] using this

/-- Claim C2: over every operation sequence from the empty table, `add`
returns a previously-removed index whenever one is available, otherwise
the new table length minus one, and the returned handle is never a
currently-live handle (it is, being a `Nat`, also non-negative); and a
pure sequence of `add` calls returns exactly the handles `0, 1, 2, ...`
in order. -/
theorem add_handle_spec (ops : List (PtrOp α)) (o : α) (objs : List α) :
    ((runOps ops).unused ≠ [] →
      ((runOps ops).add o).1 ∈ (runOps ops).unused) ∧
    ((runOps ops).unused = [] →
      ((runOps ops).add o).1 + 1 = ((runOps ops).add o).2.size) ∧
    (runOps ops).get ((runOps ops).add o).1 = none ∧
    addTrace (Pointers.empty : Pointers α) objs = List.range objs.length := by
  refine ⟨?_, ?_, add_fresh_of_inv _ o (inv_runOps ops), ?_⟩
  · intro hne
    cases hu : (runOps ops).unused with
    | nil => exact absurd hu hne
    | cons i rest => simp [Pointers.add, hu]
  · intro hu
    simp [Pointers.add, hu, Pointers.size]
  · rw [addTrace_of_no_unused objs Pointers.empty rfl, List.range_eq_range']
    rfl

/-- Claim C2, witness: on a table built by `add 7; add 8; remove 0` the
next `add` reuses the recycled handle `0`, which is dead at that point; on
the empty stack case the handle is the new length minus one; and three
pure adds return `0, 1, 2`. -/
theorem add_handle_spec_witness :
    (((runOps [PtrOp.add 7, PtrOp.add 8, PtrOp.remove 0]).add 9).1 ∈
      (runOps [PtrOp.add 7, PtrOp.add 8, PtrOp.remove 0]).unused) ∧
    (((runOps [PtrOp.add 7]).add 9).1 + 1 = ((runOps [PtrOp.add 7]).add 9).2.size) ∧
    (runOps [PtrOp.add 7, PtrOp.add 8, PtrOp.remove 0]).get
      (((runOps [PtrOp.add 7, PtrOp.add 8, PtrOp.remove 0]).add 9).1) = none ∧
    addTrace (Pointers.empty : Pointers Nat) [7, 8, 9] = [0, 1, 2] :=
  ⟨(add_handle_spec [PtrOp.add 7, PtrOp.add 8, PtrOp.remove 0] 9 []).1
      (by decide),
   (add_handle_spec [PtrOp.add 7] 9 []).2.1 (by decide),
   (add_handle_spec [PtrOp.add 7, PtrOp.add 8, PtrOp.remove 0] 9 []).2.2.1,
   (add_handle_spec [] 9 [7, 8, 9]).2.2.2⟩

/-! ## Claim C4: chunking in `XML_Parse` -/

theorem feedChunks_stop (engine : Nat → Nat) (isFinal k : Nat) (rest : List β)
    (h : engine k = 0) :
    feedChunks engine isFinal k rest =
      ([(rest.take CHUNK_SIZE, if rest.length ≤ CHUNK_SIZE then isFinal else 0)],
        0) := by
  rw [feedChunks]
  simp [h]

theorem feedChunks_last (engine : Nat → Nat) (isFinal k : Nat) (rest : List β)
    (h : engine k ≠ 0) (hl : rest.length ≤ CHUNK_SIZE) :
    feedChunks engine isFinal k rest =
      ([(rest.take CHUNK_SIZE, isFinal)], engine k) := by
  rw [feedChunks]
  simp [h, hl]

theorem feedChunks_step (engine : Nat → Nat) (isFinal k : Nat) (rest : List β)
    (h : engine k ≠ 0) (hl : ¬rest.length ≤ CHUNK_SIZE) :
    feedChunks engine isFinal k rest =
      ((rest.take CHUNK_SIZE, 0) ::
          (feedChunks engine isFinal (k + 1) (rest.drop CHUNK_SIZE)).1,
        (feedChunks engine isFinal (k + 1) (rest.drop CHUNK_SIZE)).2) := by
  rw [feedChunks]
  simp [h, hl]

theorem feedChunks_ne_nil (engine : Nat → Nat) (isFinal k : Nat)
    (rest : List β) : (feedChunks engine isFinal k rest).1 ≠ [] := by
  by_cases h : engine k = 0
  · rw [feedChunks_stop engine isFinal k rest h]
    simp
  · by_cases hl : rest.length ≤ CHUNK_SIZE
    · rw [feedChunks_last engine isFinal k rest h hl]
      simp
    · rw [feedChunks_step engine isFinal k rest h hl]
      simp

theorem feedChunks_chunk_le (engine : Nat → Nat) (isFinal : Nat) :
    ∀ n k (rest : List β), rest.length ≤ n →
      ∀ c ∈ (feedChunks engine isFinal k rest).1, c.1.length ≤ CHUNK_SIZE := by
  intro n
  induction n with
  | zero =>
    intro k rest hn c hc
    by_cases h : engine k = 0
    · rw [feedChunks_stop engine isFinal k rest h] at hc
      simp at hc
      subst hc
      simp
    · rw [feedChunks_last engine isFinal k rest h (by omega)] at hc
      simp at hc
      subst hc
      simp
  | succ n ih =>
    intro k rest hn c hc
    by_cases h : engine k = 0
    · rw [feedChunks_stop engine isFinal k rest h] at hc
      simp at hc
      subst hc
      simp
    · by_cases hl : rest.length ≤ CHUNK_SIZE
      · rw [feedChunks_last engine isFinal k rest h hl] at hc
        simp at hc
        subst hc
        simp
      · rw [feedChunks_step engine isFinal k rest h hl] at hc
        rcases List.mem_cons.mp hc with rfl | hc'
        · simp
        · exact ih (k + 1) (rest.drop CHUNK_SIZE)
            (by simp only [List.length_drop, CHUNK_SIZE] at hl ⊢; omega) c hc'

theorem feedChunks_join (engine : Nat → Nat) (isFinal : Nat)
    (hok : ∀ i, engine i ≠ 0) :
    ∀ n k (rest : List β), rest.length ≤ n →
      ((feedChunks engine isFinal k rest).1.map Prod.fst).flatten = rest := by
  intro n
  induction n with
  | zero =>
    intro k rest hn
    rw [feedChunks_last engine isFinal k rest (hok k) (by omega)]
    simpa using List.take_of_length_le (by omega)
  | succ n ih =>
    intro k rest hn
    by_cases hl : rest.length ≤ CHUNK_SIZE
    · rw [feedChunks_last engine isFinal k rest (hok k) hl]
      simpa using List.take_of_length_le hl
    · rw [feedChunks_step engine isFinal k rest (hok k) hl]
      simp only [List.map_cons, List.flatten_cons]
      rw [ih (k + 1) (rest.drop CHUNK_SIZE)
        (by simp only [List.length_drop, CHUNK_SIZE] at hl ⊢; omega)]
      exact List.take_append_drop CHUNK_SIZE rest

theorem feedChunks_flag_zero_or_final (engine : Nat → Nat) (isFinal : Nat) :
    ∀ n k (rest : List β), rest.length ≤ n →
      ∀ c ∈ (feedChunks engine isFinal k rest).1, c.2 = 0 ∨ c.2 = isFinal := by
  intro n
  induction n with
  | zero =>
    intro k rest hn c hc
    by_cases h : engine k = 0
    · rw [feedChunks_stop engine isFinal k rest h] at hc
      simp at hc
      subst hc
      rw [if_pos (by omega)]
      right; rfl
    · rw [feedChunks_last engine isFinal k rest h (by omega)] at hc
      simp at hc
      subst hc
      right; rfl
  | succ n ih =>
    intro k rest hn c hc
    by_cases h : engine k = 0
    · rw [feedChunks_stop engine isFinal k rest h] at hc
      simp at hc
      subst hc
      split
      · right; rfl
      · left; rfl
    · by_cases hl : rest.length ≤ CHUNK_SIZE
      · rw [feedChunks_last engine isFinal k rest h hl] at hc
        simp at hc
        subst hc
        right; rfl
      · rw [feedChunks_step engine isFinal k rest h hl] at hc
        rcases List.mem_cons.mp hc with rfl | hc'
        · left; rfl
        · exact ih (k + 1) (rest.drop CHUNK_SIZE)
            (by simp only [List.length_drop, CHUNK_SIZE] at hl ⊢; omega) c hc'

theorem feedChunks_nonlast_flag_zero (engine : Nat → Nat) (isFinal : Nat) :
    ∀ n k (rest : List β), rest.length ≤ n →
      ∀ c ∈ (feedChunks engine isFinal k rest).1.dropLast, c.2 = 0 := by
  intro n
  induction n with
  | zero =>
    intro k rest hn c hc
    by_cases h : engine k = 0
    · rw [feedChunks_stop engine isFinal k rest h] at hc
      simp at hc
    · rw [feedChunks_last engine isFinal k rest h (by omega)] at hc
      simp at hc
  | succ n ih =>
    intro k rest hn c hc
    by_cases h : engine k = 0
    · rw [feedChunks_stop engine isFinal k rest h] at hc
      simp at hc
    · by_cases hl : rest.length ≤ CHUNK_SIZE
      · rw [feedChunks_last engine isFinal k rest h hl] at hc
        simp at hc
      · rw [feedChunks_step engine isFinal k rest h hl] at hc
        rcases hrec : (feedChunks engine isFinal (k + 1)
            (rest.drop CHUNK_SIZE)).1 with _ | ⟨c0, cs⟩
        · exact absurd hrec (feedChunks_ne_nil engine isFinal (k + 1) _)
        · rw [hrec] at hc
          rcases List.mem_cons.mp hc with rfl | hc'
          · rfl
          · rw [← hrec] at hc'
            exact ih (k + 1) (rest.drop CHUNK_SIZE)
              (by simp only [List.length_drop, CHUNK_SIZE] at hl ⊢; omega) c hc'

/-- Claim C4: the feed loop of `XML_Parse` passes the input to the
foreign engine in consecutive sub-chunks of at most `CHUNK_SIZE` bytes;
when the engine accepts every chunk, the concatenation of the fed chunks
in feed order is exactly the original input; the `isFinal` argument fed
across the ABI is non-zero only on the last fed sub-chunk and only with
the caller's final flag value; and an empty input is fed as exactly one
empty chunk. -/
theorem XML_Parse_chunking (engine : Nat → Nat) (str : List β)
    (isFinal : Nat) :
    (∀ c ∈ (XML_Parse engine str isFinal).1, c.1.length ≤ CHUNK_SIZE) ∧
    ((∀ i, engine i ≠ 0) →
      ((XML_Parse engine str isFinal).1.map Prod.fst).flatten = str) ∧
    (∀ c ∈ (XML_Parse engine str isFinal).1.dropLast, c.2 = 0) ∧
    (∀ c ∈ (XML_Parse engine str isFinal).1, c.2 = 0 ∨ c.2 = isFinal) ∧
    (str = [] → (XML_Parse engine str isFinal).1 = [([], isFinal)]) := by
  refine ⟨feedChunks_chunk_le engine isFinal str.length 0 str le_rfl,
    fun hok => feedChunks_join engine isFinal hok str.length 0 str le_rfl,
    feedChunks_nonlast_flag_zero engine isFinal str.length 0 str le_rfl,
    feedChunks_flag_zero_or_final engine isFinal str.length 0 str le_rfl,
    fun he => ?_⟩
  subst he
  by_cases h : engine 0 = 0
  · rw [XML_Parse, feedChunks_stop engine isFinal 0 [] h]
    simp [CHUNK_SIZE]
  · rw [XML_Parse, feedChunks_last engine isFinal 0 [] h (by simp [CHUNK_SIZE])]
    simp

/-- Claim C4, witness: a concrete three-byte input under an
always-accepting engine is fed whole, and the empty input is fed as one
empty final chunk. -/
theorem XML_Parse_chunking_witness :
    ((XML_Parse (fun _ => 1) [10, 11, 12] 1).1.map Prod.fst).flatten =
      [10, 11, 12] ∧
    (XML_Parse (fun _ => 1) ([] : List Nat) 1).1 = [([], 1)] :=
  ⟨(XML_Parse_chunking (fun _ => 1) [10, 11, 12] 1).2.1 (fun _ => one_ne_zero),
   (XML_Parse_chunking (fun _ => 1) ([] : List Nat) 1).2.2.2.2 rfl⟩

/-! ## Claims C5, C6, C7, C10: the instance lifecycle -/

theorem invalid_state_parse (s : PState) (h : optTruthy s.parser = false)
    (docStatus : Nat) (es : Nat → String) (info : ErrInfo) (finalArg : Nat) :
    s.parse docStatus es info finalArg =
      ⟨.error (.error "Invalid state"), s, []⟩ := by
  simp [PState.parse, h]

theorem invalid_state_reset (s : PState) (h : optTruthy s.parser = false) :
    s.reset = ⟨.error (.error "Invalid state"), s, []⟩ := by
  simp [PState.reset, h]

theorem invalid_state_stop (s : PState) (h : optTruthy s.parser = false)
    (stopOk resumable : Nat) :
    s.stop stopOk resumable = ⟨.error (.error "Invalid state"), s, []⟩ := by
  simp [PState.stop, h]

theorem destroy_state_handleField (s : PState) (tbl : Pointers β) :
    (s.destroy tbl).state.parser =
      if optTruthy s.parser then none else s.parser := by
  unfold PState.destroy
  cases s.id with
  | none => by_cases h : optTruthy s.parser <;> simp [h]
  | some i =>
    cases hr : tbl.remove i with
    | error m => by_cases h : optTruthy s.parser <;> simp [hr, h]
    | ok tbl' => by_cases h : optTruthy s.parser <;> simp [hr, h]

theorem destroy_state_not_truthy (s : PState) (tbl : Pointers β) :
    optTruthy (s.destroy tbl).state.parser = false := by
  rw [destroy_state_handleField]
  by_cases h : optTruthy s.parser
  · rw [if_pos h]
    rfl
  · rw [if_neg h]
    exact Bool.not_eq_true _ |>.mp h

/-- Claim C7: after `destroy()` — whatever the prior state and whatever
`destroy` itself returned — every call to `parse`, `reset`, or `stop`
fails immediately with the `'Invalid state'` error, regardless of
arguments, making no ABI call and leaving the state unchanged (so every
later call fails the same way). -/
theorem destroyed_ops_invalid (s : PState) (tbl : Pointers Nat)
    (docStatus finalArg stopOk resumable : Nat) (es : Nat → String)
    (info : ErrInfo) :
    ((s.destroy tbl).state.parse docStatus es info finalArg =
      ⟨.error (.error "Invalid state"), (s.destroy tbl).state, []⟩) ∧
    ((s.destroy tbl).state.reset =
      ⟨.error (.error "Invalid state"), (s.destroy tbl).state, []⟩) ∧
    ((s.destroy tbl).state.stop stopOk resumable =
      ⟨.error (.error "Invalid state"), (s.destroy tbl).state, []⟩) :=
  ⟨invalid_state_parse _ (destroy_state_not_truthy s tbl) _ es info _,
   invalid_state_reset _ (destroy_state_not_truthy s tbl),
   invalid_state_stop _ (destroy_state_not_truthy s tbl) stopOk resumable⟩

/-- Claim C10: on an instance with a live foreign handle and a live
handle-table slot, the first `destroy()` returns `true` (freeing the
foreign parser, deleting both fields, and emitting `'destroy'` with
`true`, also on the wildcard), and the second `destroy()` on the resulting
state returns `false` without throwing, emits `'destroy'` with `false`,
and leaves the state fixed — so every further `destroy()` behaves
identically. -/
theorem destroy_twice_spec (s : PState) (tbl : Pointers Nat) (i : Nat)
    (hp : optTruthy s.parser = true) (hid : s.id = some i)
    (hl : i ∉ tbl.unused) :
    ∃ s' tbl',
      s.destroy tbl =
        ⟨.ok true, s', tbl', [.engineFree],
          [.specific "destroy" [true], .star "destroy" [true]]⟩ ∧
      s'.parser = none ∧ s'.id = none ∧
      s'.destroy tbl' =
        ⟨.ok false, s', tbl', [],
          [.specific "destroy" [false], .star "destroy" [false]]⟩ := by
  refine ⟨{ s with parser := none, id := none },
    ⟨jsDelete tbl.pointers i, i :: tbl.unused⟩, ?_, rfl, rfl, ?_⟩
  · unfold PState.destroy
    rw [hid]
    simp [Pointers.remove, hl, hp, emitOne]
  · unfold PState.destroy
    simp [optTruthy, emitOne]

/-- Claim C10, witness: a concrete live instance destroyed twice. -/
theorem destroy_twice_spec_witness :
    ∃ (s' : PState) (tbl' : Pointers Nat),
      PState.destroy ⟨some 5, some 0, ⟨false⟩⟩ (Pointers.empty.add 7).2 =
        ⟨.ok true, s', tbl', [.engineFree],
          [.specific "destroy" [true], .star "destroy" [true]]⟩ ∧
      s'.parser = none ∧ s'.id = none ∧
      s'.destroy tbl' =
        ⟨.ok false, s', tbl', [],
          [.specific "destroy" [false], .star "destroy" [false]]⟩ :=
  destroy_twice_spec ⟨some 5, some 0, ⟨false⟩⟩ (Pointers.empty.add 7).2 0
    rfl rfl (by decide)

/-- Claim C5: when the foreign engine reports failure on a feed, `parse`
throws a structured `XmlParseError` carrying the engine's error code, the
engine's message for that code, the current line, column, and byte
offset, plus the base URI when one is set; the instance has already been
reset — `XML_ParserReset` and handler re-registration appear on the ABI
trace before the error propagates, and the resulting state keeps its
foreign handle with a reusable (non-finished) engine. -/
theorem parse_error_spec (s : PState) (docStatus finalArg : Nat)
    (es : Nat → String) (info : ErrInfo)
    (hp : optTruthy s.parser = true)
    (hres : (s.engine.feed docStatus finalArg).1 = 0) :
    ∃ E s',
      s.parse docStatus es info finalArg =
        ⟨.error (.parseError E), s',
          [.engineParse 0 finalArg, .engineReset, .registerHandlers]⟩ ∧
      E.code = info.code ∧ E.xmlMessage = es info.code ∧
      E.line = info.line ∧ E.column = info.column ∧
      E.byteOffset = info.byteIndex ∧
      (info.base ≠ "" → E.base = some info.base) ∧
      s'.parser = s.parser ∧ s'.id = s.id ∧
      s'.engine.finished = false := by
  refine ⟨XmlParseError.ofInfo es info, { s with engine := ⟨false⟩ },
    ?_, rfl, by simp [XmlParseError.ofInfo], rfl, rfl, rfl, ?_, rfl, rfl, rfl⟩
  · simp [PState.parse, PState.reset, hp, hres]
  · intro hb
    simp [XmlParseError.ofInfo, hb]

/-- Claim C5, witness: a fresh live instance fed a chunk the engine
rejects with code `4` at line `2`, column `7`, byte `13`, base set. -/
theorem parse_error_spec_witness :
    ∃ E s',
      PState.parse ⟨some 5, some 0, ⟨false⟩⟩ 0
          (fun c => if c = 4 then "not well-formed" else "?")
          ⟨4, 2, 7, 13, "file:///a.xml"⟩ 1 =
        ⟨.error (.parseError E), s',
          [.engineParse 0 1, .engineReset, .registerHandlers]⟩ ∧
      E.code = 4 ∧ E.xmlMessage = "not well-formed" ∧
      E.line = 2 ∧ E.column = 7 ∧ E.byteOffset = 13 ∧
      E.base = some "file:///a.xml" ∧
      s'.parser = some 5 ∧ s'.engine.finished = false := by
  obtain ⟨E, s', h1, h2, h3, h4, h5, h6, h7, h8, _, h10⟩ :=
    parse_error_spec ⟨some 5, some 0, ⟨false⟩⟩ 0 1
      (fun c => if c = 4 then "not well-formed" else "?")
      ⟨4, 2, 7, 13, "file:///a.xml"⟩ rfl rfl
  exact ⟨E, s', h1, h2, by simpa using h3, h4, h5, h6,
    h7 (by decide), h8, h10⟩

/-- Claim C6: a `parse` call with the final flag that the engine reports
fully successful implicitly resets the instance — the engine had become
finished by that feed, yet the returned state is Active with a reusable
engine, `XML_ParserReset` and handler re-registration on the trace — so
feeding a second, independent document to the same instance without an
explicit `reset()` succeeds with the engine's status for that document. -/
theorem parse_final_implicit_reset (s : PState) (es es2 : Nat → String)
    (info info2 : ErrInfo) (st2 : Nat)
    (hp : optTruthy s.parser = true)
    (hfin : s.engine.finished = false)
    (h2 : st2 ≠ 0) :
    ∃ s',
      s.parse 1 es info 1 =
        ⟨.ok 1, s', [.engineParse 1 1, .engineReset, .registerHandlers]⟩ ∧
      (s.engine.feed 1 1).2.finished = true ∧
      s'.parser = s.parser ∧ s'.engine.finished = false ∧
      (s'.parse st2 es2 info2 1).result = .ok st2 := by
  refine ⟨{ s with engine := ⟨false⟩ }, ?_, ?_, rfl, rfl, ?_⟩
  · simp [PState.parse, PState.reset, Engine.feed, hp, hfin]
  · simp [Engine.feed, hfin]
  · by_cases h1 : st2 = 1
    · subst h1
      simp [PState.parse, PState.reset, Engine.feed, hp]
    · simp [PState.parse, PState.reset, Engine.feed, hp, h2, h1]

/-- Claim C6, witness: a live instance parses one whole document, then a
second one (engine status `1` both times) without an explicit reset. -/
theorem parse_final_implicit_reset_witness :
    ∃ s',
      PState.parse ⟨some 5, some 0, ⟨false⟩⟩ 1 (fun _ => "") ⟨0, 1, 0, 0, ""⟩ 1 =
        ⟨.ok 1, s', [.engineParse 1 1, .engineReset, .registerHandlers]⟩ ∧
      (Engine.feed ⟨false⟩ 1 1).2.finished = true ∧
      s'.parser = some 5 ∧ s'.engine.finished = false ∧
      (s'.parse 1 (fun _ => "") ⟨0, 1, 0, 0, ""⟩ 1).result = .ok 1 :=
  parse_final_implicit_reset ⟨some 5, some 0, ⟨false⟩⟩ (fun _ => "")
    (fun _ => "") ⟨0, 1, 0, 0, ""⟩ ⟨0, 1, 0, 0, ""⟩ 1 rfl rfl one_ne_zero

/-! ## Claim C8: release of the foreign content model -/

/-- Claim C8: on a callback whose instance still has a live foreign
handle when the `finally` block runs, `_elementDecl` calls
`XML_FreeContentModel` on the received model pointer exactly once, on the
normal path and on the path where emitting the event throws alike; the
release comes after the host tree is built and emitted and before control
returns to the engine; and the emitted tree is the pure host value decoded
from the heap at that moment (`unpackModel` — strings, numbers, and
nested lists only, retaining no foreign reference). -/
theorem elementDecl_frees_model (H : Nat → Nat) (S : Nat → String)
    (fuel : Nat) (pf : Option Nat) (emitThrows : Bool) (nm model : Nat)
    (hp : optTruthy pf = true) :
    ∃ p, pf = some p ∧
      (elementDecl H S fuel pf emitThrows nm model).2 =
        [.emitted (S nm) (unpackModel H S fuel model (some (S nm))),
          .freeContentModel p model] ∧
      (elementDecl H S fuel pf emitThrows nm model).2.countP
        DeclAction.isFree = 1 ∧
      (elementDecl H S fuel pf emitThrows nm model).1 =
        (if emitThrows then .error () else .ok true) := by
  cases pf with
  | none => simp [optTruthy] at hp
  | some p =>
    refine ⟨p, rfl, ?_, ?_, ?_⟩
    · cases emitThrows <;> simp [elementDecl, hp]
    · cases emitThrows <;>
        simp [elementDecl, hp, List.countP_cons, DeclAction.isFree]
    · cases emitThrows <;> simp [elementDecl]

/-- Claim C8, witness: a concrete callback on a live handle whose
emission throws still frees the model exactly once. -/
theorem elementDecl_frees_model_witness :
    ∃ p, (some 5 : Option Nat) = some p ∧
      (elementDecl (fun _ => 0) (fun _ => "E") 1 (some 5) true 3 8).2 =
        [.emitted "E" (unpackModel (fun _ => 0) (fun _ => "E") 1 8 (some "E")),
          .freeContentModel p 8] ∧
      (elementDecl (fun _ => 0) (fun _ => "E") 1 (some 5) true 3 8).2.countP
        DeclAction.isFree = 1 ∧
      (elementDecl (fun _ => 0) (fun _ => "E") 1 (some 5) true 3 8).1 =
        (if true then .error () else .ok true) :=
  elementDecl_frees_model (fun _ => 0) (fun _ => "E") 1 (some 5) true 3 8 rfl

/-! ## Claim C9: wildcard emissions -/

/-- Claim C9: in the emission stream of any sequence of `emit` calls,
every wildcard emission carrying `(n, args)` sits immediately after the
specific emission of `n` with those arguments (never before it), and
wildcard and specific emissions occur in equal number for every event, so
wildcard subscribers observe all events in specific-subscriber order. -/
theorem emit_wildcard_spec [DecidableEq A] (calls : List (String × List A)) :
    (∀ i n (a : List A), (emitAll calls)[i]? = some (.star n a) →
      1 ≤ i ∧ (emitAll calls)[i - 1]? = some (.specific n a)) ∧
    (∀ n (a : List A),
      (emitAll calls).count (.star n a) =
        (emitAll calls).count (.specific n a)) := by
  induction calls with
  | nil =>
    constructor
    · intro i n a h
      simp [emitAll] at h
    · intro n a
      rfl
  | cons c cs ih =>
    have hexp : emitAll (c :: cs) =
        .specific c.1 c.2 :: .star c.1 c.2 :: emitAll cs := by
      simp [emitAll, emitOne]
    constructor
    · intro i n a h
      rw [hexp] at h
      match i with
      | 0 => simp at h
      | 1 =>
        simp at h
        obtain ⟨rfl, rfl⟩ := h
        refine ⟨le_rfl, ?_⟩
        rw [hexp]
        rfl
      | k + 2 =>
        simp only [List.getElem?_cons_succ] at h
        obtain ⟨h1, h2⟩ := ih.1 k n a h
        refine ⟨by omega, ?_⟩
        rw [hexp]
        have hk : k - 1 + 2 = k + 2 - 1 := by omega
        calc (Emission.specific c.1 c.2 :: Emission.star c.1 c.2 ::
                emitAll cs)[k + 2 - 1]?
            = (emitAll cs)[k - 1]? := by
              rw [← hk]
              simp only [List.getElem?_cons_succ]
          _ = some (.specific n a) := h2
    · intro n a
      rw [hexp]
      simp only [List.count_cons]
      rw [ih.2 n a]
      have hiff : (Emission.star c.1 c.2 = Emission.star n a) ↔
          (Emission.specific c.1 c.2 = Emission.specific n a) := by
        constructor
        · intro h
          injection h with h1 h2
          rw [h1, h2]
        · intro h
          injection h with h1 h2
          rw [h1, h2]
      by_cases hc : Emission.specific c.1 c.2 = Emission.specific n a
      · simp [hc, hiff.mpr hc]
      · simp only [List.count_cons, hc, if_false, beq_iff_eq]
        have hstar : ¬Emission.star c.1 c.2 = Emission.star n a :=
          fun h => hc (hiff.mp h)
        simp [hc, hstar]

/-- Claim C9, witness: in the stream of one concrete `emit` call the
wildcard copy at position `1` is immediately preceded by the specific
event at position `0`. -/
theorem emit_wildcard_spec_witness :
    1 ≤ 1 ∧ (emitAll [("startElement", [2])])[1 - 1]? =
      some (.specific "startElement" [2]) :=
  (emit_wildcard_spec [("startElement", [2])]).1 1 "startElement" [2] rfl

end ExpatWasm
